import Mathlib

/-!
Verification of the alternative-route search core of `Interactive.py`
(Shortest_Path_Estimation).

The embedding models:

* the weighted directed multigraph handled by `networkx` / `osmnx`
  (`Graph` below: a node list plus a list of weighted directed edges,
  parallel edges permitted);
* `nx.astar_path` / `nx.astar_path_length` (external library calls);
* `np.random.choice(pool, size, replace=False)` (external library call),
  with `numpy`'s error behaviour for empty pools;
* `calculate_alternative_routes` (`Interactive.py`, lines 55-79),
  translated statement by statement, with Python exceptions embedded as
  `Except PyErr`;
* the ranking / labelling / metric code of `create_map_with_alternatives`
  (lines 97-98, 117-134) and `main` (lines 197-201).

Edge weights are embedded as rationals (`ℚ`); the Python floats carry exact
decimal data in every claim considered, and the spec's "within floating-point
tolerance" becomes exact equality over `ℚ`.
-/

namespace SPE

/-- Node identifiers (OSMnx uses integer node ids). -/
abbrev Node := ℕ

/-- Python exceptions that can arise inside `calculate_alternative_routes`:
`nx.NetworkXNoPath`, `nx.NodeNotFound`, and `ValueError` (raised by
`np.random.choice`).  The `except` clause on line 77 catches exactly the
first two. -/
inductive PyErr where
  | NoPathFound
  | NodeNotFound
  | ValueError
deriving DecidableEq

/-- A weighted directed multigraph: the node set and the edge list
(source, target, length-weight).  Parallel edges between the same pair are
permitted, as in the OSMnx `MultiDiGraph`. -/
structure Graph where
  nodes : List Node
  edges : List (Node × Node × ℚ)
deriving DecidableEq

/-- Node membership test (`u in G`). -/
def Graph.hasNode (G : Graph) (u : Node) : Bool := G.nodes.contains u

/-- Edge existence test: some directed edge from `u` to `v`. -/
def Graph.hasEdge (G : Graph) (u v : Node) : Bool :=
  G.edges.any (fun t => t.1 == u && t.2.1 == v)

/-- Successors of `u`: targets of outgoing edges, each neighbour listed once
(the adjacency-dict view `G._adj[u]` used by the `networkx` search). -/
def Graph.succs (G : Graph) (u : Node) : List Node :=
  ((G.edges.filter (fun t => t.1 == u)).map (fun t => t.2.1)).dedup

/-- All weights of parallel edges from `u` to `v`. -/
def Graph.edgeWeights (G : Graph) (u v : Node) : List ℚ :=
  (G.edges.filter (fun t => t.1 == u && t.2.1 == v)).map (fun t => t.2.2)

/-- The effective traversal weight from `u` to `v`: `networkx`'s weight
function for multigraphs takes the minimum over parallel edges. -/
def Graph.weightBetween (G : Graph) (u v : Node) : Option ℚ :=
  match G.edgeWeights u v with
  | [] => none
  | w :: ws => some (ws.foldl min w)

/-- `G.copy()`: in the pure embedding a deep copy is the value itself;
mutation of the copy below is functional update of the copied value. -/
def Graph.copy (G : Graph) : Graph := G

/-- `G.remove_nodes_from(S)`: drop the listed nodes and every edge incident
to any of them (absent nodes are ignored, as in `networkx`). -/
def Graph.removeNodes (G : Graph) (S : List Node) : Graph :=
  { nodes := G.nodes.filter (fun n => !(S.contains n)),
    edges := G.edges.filter (fun t => !(S.contains t.1) && !(S.contains t.2.1)) }

/-- Well-formedness invariant every `networkx` graph maintains: edge
endpoints are nodes of the graph. -/
def Graph.wf (G : Graph) : Prop :=
  ∀ t ∈ G.edges, t.1 ∈ G.nodes ∧ t.2.1 ∈ G.nodes

instance (G : Graph) : Decidable (G.wf) :=
  inferInstanceAs (Decidable (∀ t ∈ G.edges, t.1 ∈ G.nodes ∧ t.2.1 ∈ G.nodes))

/-- `p` is a walk in `G` from `s` to `e`: non-empty, starts at `s`, ends at
`e`, stays on nodes of `G`, and consecutive nodes are joined by an edge of
`G` (the Route invariant of spec §3). -/
def isWalkFrom (G : Graph) (s e : Node) (p : List Node) : Prop :=
  p ≠ [] ∧ p.head? = some s ∧ p.getLast? = some e ∧
    (∀ x ∈ p, x ∈ G.nodes) ∧ List.Chain' (fun u v => G.hasEdge u v = true) p

instance (G : Graph) (s e : Node) (p : List Node) : Decidable (isWalkFrom G s e p) :=
  inferInstanceAs (Decidable (p ≠ [] ∧ p.head? = some s ∧ p.getLast? = some e ∧
    (∀ x ∈ p, x ∈ G.nodes) ∧ List.Chain' (fun u v => G.hasEdge u v = true) p))

/-- Connectivity: some walk from `s` to `e` exists in `G`. -/
def hasPath (G : Graph) (s e : Node) : Prop := ∃ p, isWalkFrom G s e p

/-- Modelled from the spec: the search engine of `nx.astar_path` (external
library code, not in this repository).  The spec's §4.1 contract is a
deterministic complete search returning a node-simple path from the start
to the target when one exists and failing when the endpoints are
disconnected.  The expansion order of the priority queue is abstracted (no
claim depends on which path is returned, only on success/failure and on the
walk validity of the result): nodes already on the current search branch
are never revisited, and fuel bounds the branch length. -/
def astarAux (G : Graph) (e : Node) : ℕ → List Node → Node → Option (List Node)
  | 0, _, _ => none
  | fuel+1, visited, u =>
    if u = e then some [u]
    else if visited.contains u then none
    else
      match (G.succs u).findSome? (fun v => astarAux G e fuel (u :: visited) v) with
      | some q => some (u :: q)
      | none => none

/-- Modelled from the spec: `nx.astar_path(G, s, e, weight=length)`.
Raises `NodeNotFound` when an endpoint is absent (the library's first
check), returns a path when one exists, raises `NoPathFound` otherwise.
When `s = e` the library returns the single-node path `[s]`. -/
def astar_path (G : Graph) (s e : Node) : Except PyErr (List Node) :=
  if G.hasNode s && G.hasNode e then
    match astarAux G e (G.nodes.length + 1) [] s with
    | some p => Except.ok p
    | none => Except.error PyErr.NoPathFound
  else Except.error PyErr.NodeNotFound

/-- Total weight along a node sequence: sum of the effective edge weights of
consecutive pairs (missing attribute defaults to 1, as in
`d.get(weight, 1)`; in this program the attribute is always present). -/
def routeLen (G : Graph) : List Node → ℚ
  | u :: v :: rest => (G.weightBetween u v).getD 1 + routeLen G (v :: rest)
  | _ => 0

/-- Modelled from the spec: `nx.astar_path_length` re-runs the same
deterministic search and sums the effective weights along the recomputed
path. -/
def astar_path_length (G : Graph) (s e : Node) : Except PyErr ℚ :=
  (astar_path G s e).map (fun p => routeLen G p)

/-- Lines 63-64 / 74-75: the consecutive pair of library calls
`nx.astar_path` then `nx.astar_path_length` on the same graph; an exception
from either aborts the pair. -/
def astar_both (G : Graph) (s e : Node) : Except PyErr (List Node × ℚ) :=
  match astar_path G s e, astar_path_length G s e with
  | Except.ok r, Except.ok d => Except.ok (r, d)
  | Except.error err, _ => Except.error err
  | _, Except.error err => Except.error err

/-- Modelled from the spec: the seeded pseudo-random source (§9 asks for an
injectable seeded selection source).  `numpy`'s Mersenne Twister is
abstracted to a linear congruential step; no claim depends on the
distribution, only on determinism under a fixed seed. -/
def nextRand (s : ℕ) : ℕ := (s * 1103515245 + 12345) % 2147483648

/-- Draw `k` elements from `pool` without replacement, advancing the seed:
each draw picks an index from the seed and removes the drawn element from
the pool. -/
def sampleNoReplace : ℕ → ℕ → List Node → List Node × ℕ
  | seed, 0, _ => ([], seed)
  | seed, _+1, [] => ([], seed)
  | seed, k+1, x :: xs =>
    let pool := x :: xs
    let y := pool.getD (seed % pool.length) 0
    let rest := pool.erase y
    let out := sampleNoReplace (nextRand seed) k rest
    (y :: out.1, out.2)

/-- Modelled from the spec: `np.random.choice(pool, size=size, replace=False)`.
`numpy` raises `ValueError` when the population is empty yet `size ≠ 0`
(this covers the negative size arising from `min(3, len(route)-2)` when the
route is a single node), and when the requested sample exceeds the
population with `replace=False`; `size = 0` on an empty population is
accepted and yields an empty sample.  A negative `size` with a non-empty
population cannot occur at the call site (there `size ≥ 1` whenever the
pool is non-empty). -/
def np_random_choice (seed : ℕ) (pool : List Node) (size : ℤ) :
    Except PyErr (List Node × ℕ) :=
  if pool = [] ∧ size ≠ 0 then Except.error PyErr.ValueError
  else if (pool.length : ℤ) < size then Except.error PyErr.ValueError
  else Except.ok (sampleNoReplace seed size.toNat pool)

/-- `route[1:-1]`: the interior of a route, both endpoints dropped. -/
def interiors (p : List Node) : List Node := (p.drop 1).dropLast

/-- Lines 68-73: for every previous route, sample
`min(3, len(prev_route)-2)` of its interior nodes without replacement and
remove them (with incident edges) from the working graph; a `ValueError`
from the sampler aborts the whole loop. -/
def removeForRoutes (seed : ℕ) (tempG : Graph) :
    List (List Node × ℚ) → Except PyErr (Graph × ℕ)
  | [] => Except.ok (tempG, seed)
  | (prev, _) :: rest =>
    match np_random_choice seed (interiors prev) (min 3 ((prev.length : ℤ) - 2)) with
    | Except.error err => Except.error err
    | Except.ok (sel, seed') => removeForRoutes seed' (tempG.removeNodes sel) rest

/-- Lines 67-73: take a fresh working copy of the full graph and deplete it
according to the routes found so far. -/
def perturb (seed : ℕ) (G : Graph) (routes : List (List Node × ℚ)) :
    Except PyErr (Graph × ℕ) :=
  removeForRoutes seed G.copy routes

/-- The `except (nx.NetworkXNoPath, nx.NodeNotFound)` clause of line 77:
which exceptions the loop body's handler catches. -/
def isCaught : PyErr → Bool
  | PyErr.NoPathFound => true
  | PyErr.NodeNotFound => true
  | PyErr.ValueError => false

/-- The body of one `for i in range(num_routes)` iteration (lines 60-78):
iteration 0 searches the full graph; a later iteration searches the
depleted working copy.  `Except.ok (some rd, seed)` is a successful append,
`Except.ok (none, seed)` is a caught exception followed by `continue`, and
`Except.error` is an uncaught exception propagating out of the function. -/
def attemptIter (G : Graph) (s e : Node) (seed : ℕ) (i : ℕ)
    (routes : List (List Node × ℚ)) :
    Except PyErr (Option (List Node × ℚ) × ℕ) :=
  if i = 0 then
    match astar_both G s e with
    | Except.ok rd => Except.ok (some rd, seed)
    | Except.error err =>
      if isCaught err then Except.ok (none, seed) else Except.error err
  else
    match perturb seed G routes with
    | Except.error err =>
      if isCaught err then Except.ok (none, seed) else Except.error err
    | Except.ok (tempG, seed') =>
      match astar_both tempG s e with
      | Except.ok rd => Except.ok (some rd, seed')
      | Except.error err =>
        if isCaught err then Except.ok (none, seed') else Except.error err

/-- The `for i in range(num_routes)` loop of lines 58-78: `n` iterations
remain, `i` is the current index, successful iterations append to
`routes`. -/
def calcAux (G : Graph) (s e : Node) :
    ℕ → ℕ → ℕ → List (List Node × ℚ) → Except PyErr (List (List Node × ℚ) × ℕ)
  | 0, _, seed, routes => Except.ok (routes, seed)
  | n+1, i, seed, routes =>
    match attemptIter G s e seed i routes with
    | Except.error err => Except.error err
    | Except.ok (none, seed') => calcAux G s e n (i+1) seed' routes
    | Except.ok (some rd, seed') => calcAux G s e n (i+1) seed' (routes ++ [rd])

/-- `calculate_alternative_routes(G, start_node, end_node, num_routes)`
(lines 55-79), with the pseudo-random source threaded explicitly as a
seed.  A normal return carries the list of (route, distance) pairs; an
`Except.error` is an uncaught Python exception. -/
def calculate_alternative_routes (G : Graph) (start_node end_node : Node)
    (num_routes : ℕ) (seed : ℕ) : Except PyErr (List (List Node × ℚ)) :=
  (calcAux G start_node end_node num_routes 0 seed []).map Prod.fst

/-- State-passing form of the loop: alongside the result it returns the
final state of the caller's graph object.  The body only ever reads `G`
(`G.copy()` on line 67); every `remove_nodes_from` targets the
per-iteration copy, so the threaded object is returned as-is by each
branch. -/
def calcAuxSt (G : Graph) (s e : Node) :
    ℕ → ℕ → ℕ → List (List Node × ℚ) →
    (Except PyErr (List (List Node × ℚ) × ℕ)) × Graph
  | 0, _, seed, routes => (Except.ok (routes, seed), G)
  | n+1, i, seed, routes =>
    match attemptIter G s e seed i routes with
    | Except.error err => (Except.error err, G)
    | Except.ok (none, seed') => calcAuxSt G s e n (i+1) seed' routes
    | Except.ok (some rd, seed') => calcAuxSt G s e n (i+1) seed' (routes ++ [rd])

/-- Line 117: `routes.sort(key=lambda x: x[1])` — stable sort ascending by
recorded distance. -/
def sortRoutes (rs : List (List Node × ℚ)) : List (List Node × ℚ) :=
  rs.mergeSort (fun a b => a.2 ≤ b.2)

/-- Line 200: the label printed for the route at sorted index `i`. -/
def route_type (i : ℕ) : String :=
  if i = 0 then "Shortest" else if i = 1 then "Alternative" else "Longest"

/-- Line 121: the tooltip label list of `create_map_with_alternatives`. -/
def tooltipLabels : List String := ["Shortest Route", "Alternative Route", "Longest Route"]

/-- Line 133: `labels[min(i, len(labels)-1)]`. -/
def tooltipFor (i : ℕ) : String :=
  tooltipLabels.getD (min i (tooltipLabels.length - 1)) (route_type i)

/-- Line 97: `distances_km = [dist/1000 for _, dist in routes]`. -/
def distances_km (routes : List (List Node × ℚ)) : List ℚ :=
  routes.map (fun rd => rd.2 / 1000)

/-- Line 98: `times_min = [d/40*60 for d in distances_km]`. -/
def times_min (routes : List (List Node × ℚ)) : List ℚ :=
  (distances_km routes).map (fun d => d / 40 * 60)

/-- Lines 198-199: `distance_km = distance / 1000`;
`time_min = distance_km / 40 * 60`. -/
def summary_metrics (distance : ℚ) : ℚ × ℚ :=
  (distance / 1000, distance / 1000 / 40 * 60)

/-! ### Graph-level lemmas -/

lemma hasEdge_iff {G : Graph} {u v : Node} :
    G.hasEdge u v = true ↔ ∃ w, (u, v, w) ∈ G.edges := by
  unfold Graph.hasEdge
  simp only [List.any_eq_true, Bool.and_eq_true, beq_iff_eq]
  constructor
  · rintro ⟨⟨a, b, w⟩, hmem, h1, h2⟩
    simp only at h1 h2
    subst h1; subst h2; exact ⟨w, hmem⟩
  · rintro ⟨w, hmem⟩
    exact ⟨(u, v, w), hmem, rfl, rfl⟩

lemma mem_succs_iff {G : Graph} {u v : Node} :
    v ∈ G.succs u ↔ ∃ w, (u, v, w) ∈ G.edges := by
  unfold Graph.succs
  simp only [List.mem_dedup, List.mem_map, List.mem_filter, beq_iff_eq]
  constructor
  · rintro ⟨⟨a, b, w⟩, ⟨hmem, ha⟩, hb⟩
    simp only at ha hb
    subst ha; subst hb; exact ⟨w, hmem⟩
  · rintro ⟨w, hmem⟩
    exact ⟨(u, v, w), ⟨hmem, rfl⟩, rfl⟩

lemma mem_succs_of_hasEdge {G : Graph} {u v : Node} (h : G.hasEdge u v = true) :
    v ∈ G.succs u :=
  mem_succs_iff.mpr (hasEdge_iff.mp h)

lemma hasEdge_of_mem_succs {G : Graph} {u v : Node} (h : v ∈ G.succs u) :
    G.hasEdge u v = true :=
  hasEdge_iff.mpr (mem_succs_iff.mp h)

lemma succs_mem_nodes {G : Graph} (hwf : G.wf) {u v : Node} (h : v ∈ G.succs u) :
    v ∈ G.nodes := by
  obtain ⟨w, hmem⟩ := mem_succs_iff.mp h
  exact (hwf _ hmem).2

lemma hasNode_iff {G : Graph} {u : Node} : G.hasNode u = true ↔ u ∈ G.nodes := by
  unfold Graph.hasNode
  simp

lemma removeNodes_nil (G : Graph) : G.removeNodes [] = G := by
  unfold Graph.removeNodes
  cases G with
  | mk nodes edges => simp

lemma removeNodes_removeNodes (G : Graph) (S T : List Node) :
    (G.removeNodes S).removeNodes T = G.removeNodes (S ++ T) := by
  unfold Graph.removeNodes
  simp only [List.filter_filter]
  congr 1
  · apply List.filter_congr
    intro x _
    cases hS : S.contains x <;> cases hT : T.contains x <;> simp_all
  · apply List.filter_congr
    intro x _
    cases h1 : S.contains x.1 <;> cases h2 : T.contains x.1 <;>
      cases h3 : S.contains x.2.1 <;> cases h4 : T.contains x.2.1 <;>
      simp_all

lemma mem_removeNodes_nodes {G : Graph} {S : List Node} {x : Node} :
    x ∈ (G.removeNodes S).nodes ↔ x ∈ G.nodes ∧ x ∉ S := by
  unfold Graph.removeNodes
  simp

lemma removeNodes_wf {G : Graph} (hwf : G.wf) (S : List Node) :
    (G.removeNodes S).wf := by
  intro t ht
  unfold Graph.removeNodes at ht
  simp only [List.mem_filter, Bool.and_eq_true, Bool.not_eq_eq_eq_not, Bool.not_true] at ht
  obtain ⟨hmem, h1, h2⟩ := ht
  constructor
  · exact mem_removeNodes_nodes.mpr ⟨(hwf _ hmem).1, by simpa using h1⟩
  · exact mem_removeNodes_nodes.mpr ⟨(hwf _ hmem).2, by simpa using h2⟩

lemma hasEdge_removeNodes {G : Graph} {S : List Node} {u v : Node}
    (h : (G.removeNodes S).hasEdge u v = true) : G.hasEdge u v = true := by
  obtain ⟨w, hmem⟩ := hasEdge_iff.mp h
  unfold Graph.removeNodes at hmem
  simp only [List.mem_filter] at hmem
  exact hasEdge_iff.mpr ⟨w, hmem.1⟩

lemma walk_of_removeNodes {G : Graph} {S : List Node} {s e : Node} {p : List Node}
    (h : isWalkFrom (G.removeNodes S) s e p) : isWalkFrom G s e p := by
  obtain ⟨hne, hh, hl, hmem, hch⟩ := h
  refine ⟨hne, hh, hl, ?_, ?_⟩
  · intro x hx
    exact (mem_removeNodes_nodes.mp (hmem x hx)).1
  · exact hch.imp (fun a b hab => hasEdge_removeNodes hab)

lemma hasPath_of_removeNodes {G : Graph} {S : List Node} {s e : Node}
    (h : hasPath (G.removeNodes S) s e) : hasPath G s e := by
  obtain ⟨p, hp⟩ := h
  exact ⟨p, walk_of_removeNodes hp⟩

/-! ### Path-finder lemmas -/

lemma findSome?_isSome_of_mem {α β : Type _} {l : List α} {f : α → Option β} {a : α}
    (ha : a ∈ l) (hf : (f a).isSome = true) : (l.findSome? f).isSome = true := by
  induction l with
  | nil => simp at ha
  | cons x xs ih =>
    rw [List.findSome?_cons]
    cases hx : f x with
    | some b => simp
    | none =>
      rcases List.mem_cons.mp ha with h | h
      · subst h; rw [hx] at hf; simp at hf
      · exact ih h

lemma astarAux_sound {G : Graph} (hwf : G.wf) {e : Node} :
    ∀ (fuel : ℕ) (visited : List Node) (u : Node) (p : List Node),
      u ∈ G.nodes → e ∉ visited →
      astarAux G e fuel visited u = some p →
      p.head? = some u ∧ p.getLast? = some e ∧ (∀ x ∈ p, x ∈ G.nodes) ∧
        List.Chain' (fun a b => G.hasEdge a b = true) p ∧ p.Nodup ∧
        ∀ x ∈ p, x ∉ visited := by
  intro fuel
  induction fuel with
  | zero => intro visited u p _ _ h; simp [astarAux] at h
  | succ n ih =>
    intro visited u p hu he h
    unfold astarAux at h
    by_cases hue : u = e
    · subst hue
      rw [if_pos rfl] at h
      injection h with h
      subst h
      refine ⟨rfl, rfl, ?_, ?_, ?_, ?_⟩
      · intro x hx; rcases List.mem_singleton.mp hx with rfl; exact hu
      · exact List.chain'_singleton _
      · exact List.nodup_singleton _
      · intro x hx; rcases List.mem_singleton.mp hx with rfl; exact he
    · rw [if_neg hue] at h
      cases hv : visited.contains u with
      | true => rw [hv] at h; simp at h
      | false =>
        rw [hv] at h
        simp only [Bool.false_eq_true, if_false] at h
        cases hfs : (G.succs u).findSome? (fun v => astarAux G e n (u :: visited) v) with
        | none => rw [hfs] at h; simp at h
        | some q =>
          rw [hfs] at h
          injection h with h
          subst h
          obtain ⟨v, hvmem, hvres⟩ := List.exists_of_findSome?_eq_some hfs
          have hvn : v ∈ G.nodes := succs_mem_nodes hwf hvmem
          have hev : e ∉ u :: visited := by
            intro hc
            rcases List.mem_cons.mp hc with rfl | hc
            · exact hue rfl
            · exact he hc
          obtain ⟨qh, ql, qm, qc, qn, qv⟩ := ih (u :: visited) v q hvn hev hvres
          have hqne : q ≠ [] := by intro h0; rw [h0] at qh; cases qh
          obtain ⟨q', rfl⟩ := List.head?_eq_some_iff.mp qh
          refine ⟨rfl, ?_, ?_, ?_, ?_, ?_⟩
          · rw [List.getLast?_cons_cons]; exact ql
          · intro x hx
            rcases List.mem_cons.mp hx with rfl | hx
            · exact hu
            · exact qm x hx
          · rw [List.chain'_cons]
            exact ⟨hasEdge_of_mem_succs hvmem, qc⟩
          · rw [List.nodup_cons]
            refine ⟨?_, qn⟩
            intro hc
            exact (qv u hc) (List.mem_cons_self u visited)
          · intro x hx
            rcases List.mem_cons.mp hx with rfl | hx
            · intro hc
              have hcc : visited.contains x = true := by simpa using hc
              rw [hcc] at hv
              cases hv
            · intro hc; exact (qv x hx) (List.mem_cons_of_mem u hc)

lemma astarAux_complete {G : Graph} {e : Node} :
    ∀ (fuel : ℕ) (visited : List Node) (u : Node) (p : List Node),
      p.head? = some u → p.getLast? = some e →
      List.Chain' (fun a b => G.hasEdge a b = true) p →
      p.Nodup → (∀ x ∈ p, x ∉ visited) → p.length ≤ fuel →
      (astarAux G e fuel visited u).isSome = true := by
  intro fuel
  induction fuel with
  | zero =>
    intro visited u p hh _ _ _ _ hlen
    obtain ⟨p', rfl⟩ := List.head?_eq_some_iff.mp hh
    simp at hlen
  | succ n ih =>
    intro visited u p hh hl hch hnd hdis hlen
    obtain ⟨p', rfl⟩ := List.head?_eq_some_iff.mp hh
    unfold astarAux
    by_cases hue : u = e
    · rw [if_pos hue]; rfl
    · rw [if_neg hue]
      have hv : visited.contains u = false := by
        simpa using hdis u (List.mem_cons_self u p')
      rw [hv]
      simp only [Bool.false_eq_true, if_false]
      cases p' with
      | nil =>
        rw [List.getLast?_singleton] at hl
        injection hl with hl
        exact absurd hl hue
      | cons v rest =>
        have hstep : G.hasEdge u v = true := (List.chain'_cons.mp hch).1
        have hrec : (astarAux G e n (u :: visited) v).isSome = true := by
          apply ih (u :: visited) v (v :: rest) rfl
          · rw [List.getLast?_cons_cons] at hl; exact hl
          · exact (List.chain'_cons.mp hch).2
          · exact (List.nodup_cons.mp hnd).2
          · intro x hx
            intro hc
            rcases List.mem_cons.mp hc with rfl | hc
            · exact (List.nodup_cons.mp hnd).1 hx
            · exact (hdis x (List.mem_cons_of_mem u hx)) hc
          · simp at hlen ⊢; omega
        have hfs := findSome?_isSome_of_mem (mem_succs_of_hasEdge hstep) hrec
        cases hx : (G.succs u).findSome? (fun w => astarAux G e n (u :: visited) w) with
        | none => rw [hx] at hfs; simp at hfs
        | some q => rfl

lemma exists_nodup_walk {G : Graph} {e : Node} :
    ∀ (n : ℕ) (p : List Node) (s : Node), p.length ≤ n → isWalkFrom G s e p →
      ∃ q, isWalkFrom G s e q ∧ q.Nodup ∧ q ⊆ p := by
  intro n
  induction n with
  | zero =>
    intro p s hlen hw
    obtain ⟨rest, rfl⟩ := List.head?_eq_some_iff.mp hw.2.1
    simp at hlen
  | succ n ih =>
    intro p s hlen hw
    obtain ⟨hne, hh, hl, hmem, hch⟩ := hw
    obtain ⟨rest, rfl⟩ := List.head?_eq_some_iff.mp hh
    by_cases hsr : s ∈ rest
    · obtain ⟨a, b, rfl⟩ := List.append_of_mem hsr
      have hsplit : s :: (a ++ s :: b) = (s :: a) ++ (s :: b) := by simp
      rw [hsplit] at hl hch hmem hlen
      have hch2 : List.Chain' (fun x y => G.hasEdge x y = true) (s :: b) :=
        (List.chain'_append.mp hch).2.1
      have hl2 : (s :: b).getLast? = some e := by
        rw [List.getLast?_append] at hl
        obtain ⟨x, hx⟩ : ∃ x, (s :: b).getLast? = some x := by
          cases hy : (s :: b).getLast? with
          | none => rw [List.getLast?_eq_none_iff] at hy; cases hy
          | some x => exact ⟨x, rfl⟩
        rw [hx] at hl ⊢
        simpa [Option.or] using hl
      have hw2 : isWalkFrom G s e (s :: b) := by
        refine ⟨List.cons_ne_nil _ _, rfl, hl2, ?_, hch2⟩
        intro x hx
        exact hmem x (List.mem_append_right _ hx)
      have hlen2 : (s :: b).length ≤ n := by
        simp only [List.length_append, List.length_cons] at hlen ⊢
        omega
      obtain ⟨q, hq, hqn, hqs⟩ := ih (s :: b) s hlen2 hw2
      refine ⟨q, hq, hqn, ?_⟩
      rw [hsplit]
      intro x hx
      exact List.mem_append_right _ (hqs hx)
    · cases rest with
      | nil =>
        have : s = e := by
          rw [List.getLast?_singleton] at hl
          injection hl
        refine ⟨[s], ⟨List.cons_ne_nil _ _, rfl, by rw [this] at hl ⊢; exact hl, ?_, List.chain'_singleton _⟩, List.nodup_singleton _, fun x hx => hx⟩
        intro x hx
        exact hmem x hx
      | cons v rest' =>
        have hw2 : isWalkFrom G v e (v :: rest') := by
          refine ⟨List.cons_ne_nil _ _, rfl, ?_, ?_, (List.chain'_cons.mp hch).2⟩
          · rw [List.getLast?_cons_cons] at hl; exact hl
          · intro x hx; exact hmem x (List.mem_cons_of_mem s hx)
        have hlen2 : (v :: rest').length ≤ n := by
          simp only [List.length_cons] at hlen ⊢
          omega
        obtain ⟨q, hq, hqn, hqs⟩ := ih (v :: rest') v hlen2 hw2
        have hqne : q ≠ [] := hq.1
        refine ⟨s :: q, ?_, ?_, ?_⟩
        · refine ⟨List.cons_ne_nil _ _, rfl, ?_, ?_, ?_⟩
          · obtain ⟨q', rfl⟩ := List.head?_eq_some_iff.mp hq.2.1
            rw [List.getLast?_cons_cons]
            exact hq.2.2.1
          · intro x hx
            rcases List.mem_cons.mp hx with rfl | hx
            · exact hmem _ (List.mem_cons_self _ _)
            · exact hq.2.2.2.1 x hx
          · rw [List.chain'_cons']
            refine ⟨?_, hq.2.2.2.2⟩
            intro y hy
            rw [hq.2.1] at hy
            injection hy with hy
            subst hy
            exact (List.chain'_cons.mp hch).1
        · rw [List.nodup_cons]
          exact ⟨fun hc => hsr (hqs hc), hqn⟩
        · intro x hx
          rcases List.mem_cons.mp hx with rfl | hx
          · exact List.mem_cons_self _ _
          · exact List.mem_cons_of_mem _ (hqs hx)

lemma walk_ne_nil {G : Graph} {s e : Node} {p : List Node} (h : isWalkFrom G s e p) :
    p ≠ [] := h.1

lemma astar_path_sound {G : Graph} (hwf : G.wf) {s e : Node} {p : List Node}
    (h : astar_path G s e = Except.ok p) : isWalkFrom G s e p ∧ p.Nodup := by
  unfold astar_path at h
  by_cases hc : (G.hasNode s && G.hasNode e) = true
  · rw [if_pos hc] at h
    cases hx : astarAux G e (G.nodes.length + 1) [] s with
    | none => rw [hx] at h; cases h
    | some q =>
      rw [hx] at h
      injection h with h
      subst h
      have hs : s ∈ G.nodes := hasNode_iff.mp (Bool.and_eq_true_iff.mp hc).1
      obtain ⟨hh, hl, hm, hch, hnd, _⟩ :=
        astarAux_sound hwf (G.nodes.length + 1) [] s q hs (by simp) hx
      have hne : q ≠ [] := by intro h0; rw [h0] at hh; cases hh
      exact ⟨⟨hne, hh, hl, hm, hch⟩, hnd⟩
  · rw [if_neg hc] at h; cases h

lemma astar_path_complete {G : Graph} {s e : Node}
    (hs : s ∈ G.nodes) (he : e ∈ G.nodes) (hp : hasPath G s e) :
    ∃ p, astar_path G s e = Except.ok p := by
  obtain ⟨p0, hw0⟩ := hp
  obtain ⟨q, hq, hqn, _⟩ := exists_nodup_walk p0.length p0 s le_rfl hw0
  have hsub : q ⊆ G.nodes := fun x hx => hq.2.2.2.1 x hx
  have hqlen : q.length ≤ G.nodes.length := (hqn.subperm hsub).length_le
  have hres := astarAux_complete (G.nodes.length + 1) [] s q hq.2.1 hq.2.2.1
    hq.2.2.2.2 hqn (by simp) (by omega)
  unfold astar_path
  rw [if_pos (by rw [Bool.and_eq_true_iff, hasNode_iff, hasNode_iff]; exact ⟨hs, he⟩)]
  cases hx : astarAux G e (G.nodes.length + 1) [] s with
  | none => rw [hx] at hres; simp at hres
  | some r => exact ⟨r, rfl⟩

lemma astar_path_error_caught {G : Graph} {s e : Node} {err : PyErr}
    (h : astar_path G s e = Except.error err) : isCaught err = true := by
  unfold astar_path at h
  by_cases hc : (G.hasNode s && G.hasNode e) = true
  · rw [if_pos hc] at h
    cases hx : astarAux G e (G.nodes.length + 1) [] s with
    | none => rw [hx] at h; injection h with h; rw [← h]; rfl
    | some q => rw [hx] at h; cases h
  · rw [if_neg hc] at h
    injection h with h
    rw [← h]
    rfl

lemma astar_path_fails {G : Graph} (hwf : G.wf) {s e : Node} (hnp : ¬ hasPath G s e) :
    ∃ err, astar_path G s e = Except.error err ∧ isCaught err = true := by
  cases hres : astar_path G s e with
  | ok p => exact absurd ⟨p, (astar_path_sound hwf hres).1⟩ hnp
  | error err => exact ⟨err, rfl, astar_path_error_caught hres⟩

lemma astar_both_eq (G : Graph) (s e : Node) :
    astar_both G s e = match astar_path G s e with
      | Except.ok r => Except.ok (r, routeLen G r)
      | Except.error err => Except.error err := by
  unfold astar_both astar_path_length
  cases astar_path G s e <;> rfl

lemma astar_both_ok {G : Graph} {s e : Node} {r : List Node} {d : ℚ}
    (h : astar_both G s e = Except.ok (r, d)) :
    astar_path G s e = Except.ok r ∧ d = routeLen G r := by
  rw [astar_both_eq] at h
  cases hx : astar_path G s e with
  | ok r' =>
    rw [hx] at h
    injection h with h
    rw [Prod.mk.injEq] at h
    obtain ⟨h1, h2⟩ := h
    subst h1
    subst h2
    exact ⟨rfl, rfl⟩
  | error err => rw [hx] at h; cases h

lemma astar_both_err {G : Graph} {s e : Node} {err : PyErr}
    (h : astar_both G s e = Except.error err) :
    astar_path G s e = Except.error err := by
  rw [astar_both_eq] at h
  cases hx : astar_path G s e with
  | ok r' => rw [hx] at h; cases h
  | error err' => rw [hx] at h; injection h with h; rw [h]

lemma astar_path_self {G : Graph} {s : Node} (hs : s ∈ G.nodes) :
    astar_path G s s = Except.ok [s] := by
  unfold astar_path
  rw [if_pos (by rw [Bool.and_eq_true_iff, hasNode_iff]; exact ⟨hs, hs⟩)]
  have hstep : astarAux G s (G.nodes.length + 1) [] s = some [s] := by
    unfold astarAux
    rw [if_pos rfl]
  rw [hstep]

/-! ### Sampler lemmas -/

lemma sampleNoReplace_spec :
    ∀ (k : ℕ) (pool : List Node) (seed : ℕ), pool.Nodup → k ≤ pool.length →
      (sampleNoReplace seed k pool).1.Nodup ∧
      (sampleNoReplace seed k pool).1 ⊆ pool ∧
      (sampleNoReplace seed k pool).1.length = k := by
  intro k
  induction k with
  | zero =>
    intro pool seed _ _
    refine ⟨?_, ?_, ?_⟩ <;> simp [sampleNoReplace]
  | succ k ih =>
    intro pool seed hnd hlen
    cases pool with
    | nil => simp at hlen
    | cons x xs =>
      have hpos : 0 < (x :: xs).length := by simp
      have hymem : (x :: xs).getD (seed % (x :: xs).length) 0 ∈ x :: xs := by
        rw [List.getD_eq_getElem _ _ (Nat.mod_lt _ hpos)]
        exact List.getElem_mem _
      have hrest_nd : ((x :: xs).erase ((x :: xs).getD (seed % (x :: xs).length) 0)).Nodup :=
        hnd.erase _
      have hrest_len :
          ((x :: xs).erase ((x :: xs).getD (seed % (x :: xs).length) 0)).length =
            (x :: xs).length - 1 :=
        List.length_erase_of_mem hymem
      have hrest_le :
          k ≤ ((x :: xs).erase ((x :: xs).getD (seed % (x :: xs).length) 0)).length := by
        rw [hrest_len]
        simp only [List.length_cons] at hlen ⊢
        omega
      obtain ⟨ond, osub, olen⟩ := ih _ (nextRand seed) hrest_nd hrest_le
      refine ⟨?_, ?_, ?_⟩
      · show ((x :: xs).getD (seed % (x :: xs).length) 0 ::
          (sampleNoReplace (nextRand seed) k _).1).Nodup
        rw [List.nodup_cons]
        refine ⟨?_, ond⟩
        intro hc
        exact ((hnd.mem_erase_iff).mp (osub hc)).1 rfl
      · show ((x :: xs).getD (seed % (x :: xs).length) 0 ::
          (sampleNoReplace (nextRand seed) k _).1) ⊆ x :: xs
        intro z hz
        rcases List.mem_cons.mp hz with rfl | hz
        · exact hymem
        · exact List.erase_subset _ _ (osub hz)
      · show ((x :: xs).getD (seed % (x :: xs).length) 0 ::
          (sampleNoReplace (nextRand seed) k _).1).length = k + 1
        rw [List.length_cons, olen]

lemma interiors_length (p : List Node) : (interiors p).length = p.length - 2 := by
  unfold interiors
  rw [List.length_dropLast, List.length_drop]
  omega

lemma interiors_sublist (p : List Node) : (interiors p).Sublist p :=
  (List.dropLast_sublist _).trans (List.drop_sublist 1 p)

lemma interiors_nodup {p : List Node} (h : p.Nodup) : (interiors p).Nodup :=
  (interiors_sublist p).nodup h

lemma np_choice_route_ok {seed : ℕ} {p : List Node} (hnd : p.Nodup) (hlen : 2 ≤ p.length) :
    ∃ sel seed',
      np_random_choice seed (interiors p) (min 3 ((p.length : ℤ) - 2)) =
        Except.ok (sel, seed') ∧
      sel.Nodup ∧ sel ⊆ interiors p ∧ sel.length = min 3 (p.length - 2) := by
  have hpoollen : (interiors p).length = p.length - 2 := interiors_length p
  have htn : (min (3:ℤ) ((p.length : ℤ) - 2)).toNat = min 3 (p.length - 2) := by omega
  unfold np_random_choice
  rw [if_neg ?hc1, if_neg ?hc2]
  case hc1 =>
    rintro ⟨hnil, hsz⟩
    have h0 : p.length - 2 = 0 := by rw [← hpoollen, hnil]; rfl
    have : p.length = 2 := by omega
    rw [this] at hsz
    exact hsz (by decide)
  case hc2 =>
    rw [hpoollen]
    omega
  rw [htn]
  obtain ⟨a, b, c⟩ := sampleNoReplace_spec (min 3 (p.length - 2)) (interiors p) seed
    (interiors_nodup hnd) (by rw [hpoollen]; omega)
  exact ⟨_, _, rfl, a, b, c⟩

lemma np_choice_singleton {seed : ℕ} {p : List Node} (h1 : p.length = 1) :
    np_random_choice seed (interiors p) (min 3 ((p.length : ℤ) - 2)) =
      Except.error PyErr.ValueError := by
  have hnil : interiors p = [] := by
    have := interiors_length p
    rw [h1] at this
    exact List.length_eq_zero.mp this
  unfold np_random_choice
  rw [if_pos ⟨hnil, by rw [h1]; decide⟩]

/-! ### Perturbation-loop lemmas -/

/-- What one sampling step of lines 70-72 guarantees for a previous route:
the selection is a duplicate-free subset of the interior of the route, of
size `min(3, number of interior nodes)`. -/
def selSpec (q : List Node × ℚ) (sel : List Node) : Prop :=
  sel.Nodup ∧ sel ⊆ interiors q.1 ∧ sel.length = min 3 (q.1.length - 2)

lemma removeForRoutes_ok_shape :
    ∀ (R : List (List Node × ℚ)) (σ : ℕ) (H H' : Graph) (σ' : ℕ),
      removeForRoutes σ H R = Except.ok (H', σ') → ∃ S, H' = H.removeNodes S := by
  intro R
  induction R with
  | nil =>
    intro σ H H' σ' h
    refine ⟨[], ?_⟩
    simp only [removeForRoutes] at h
    injection h with h
    rw [Prod.mk.injEq] at h
    rw [← h.1, removeNodes_nil]
  | cons q rest ih =>
    intro σ H H' σ' h
    obtain ⟨prev, d⟩ := q
    simp only [removeForRoutes] at h
    cases hc : np_random_choice σ (interiors prev) (min 3 ((prev.length : ℤ) - 2)) with
    | error err => rw [hc] at h; cases h
    | ok pr =>
      rw [hc] at h
      obtain ⟨sel, σ₂⟩ := pr
      obtain ⟨S2, hS2⟩ := ih σ₂ (H.removeNodes sel) H' σ' h
      exact ⟨sel ++ S2, by rw [hS2, removeNodes_removeNodes]⟩

lemma removeForRoutes_spec :
    ∀ (R : List (List Node × ℚ)) (σ : ℕ) (H : Graph),
      (∀ q ∈ R, q.1.Nodup ∧ 2 ≤ q.1.length) →
      ∃ sels σ', List.Forall₂ selSpec R sels ∧
        removeForRoutes σ H R = Except.ok (H.removeNodes sels.flatten, σ') := by
  intro R
  induction R with
  | nil =>
    intro σ H _
    refine ⟨[], σ, List.Forall₂.nil, ?_⟩
    simp only [removeForRoutes, List.flatten_nil, removeNodes_nil]
  | cons q rest ih =>
    intro σ H hR
    obtain ⟨prev, d⟩ := q
    obtain ⟨hnd, hlen⟩ := hR _ (List.mem_cons_self _ _)
    obtain ⟨sel, σ₂, hok, hsnd, hssub, hslen⟩ := @np_choice_route_ok σ prev hnd hlen
    obtain ⟨sels, σ', hall, hrec⟩ :=
      ih σ₂ (H.removeNodes sel) (fun q hq => hR q (List.mem_cons_of_mem _ hq))
    refine ⟨sel :: sels, σ', List.Forall₂.cons ⟨hsnd, hssub, hslen⟩ hall, ?_⟩
    simp only [removeForRoutes, hok]
    rw [hrec, removeNodes_removeNodes, List.flatten_cons]

lemma perturb_spec {G : Graph} {R : List (List Node × ℚ)} {σ : ℕ}
    (hR : ∀ q ∈ R, q.1.Nodup ∧ 2 ≤ q.1.length) :
    ∃ sels σ', List.Forall₂ selSpec R sels ∧
      perturb σ G R = Except.ok (G.removeNodes sels.flatten, σ') :=
  removeForRoutes_spec R σ G.copy hR

lemma perturb_empty (σ : ℕ) (G : Graph) : perturb σ G [] = Except.ok (G, σ) := by
  simp only [perturb, Graph.copy, removeForRoutes]

/-! ### Loop lemmas -/

lemma attemptIter_zero (G : Graph) (s e : Node) (σ : ℕ) (routes : List (List Node × ℚ)) :
    attemptIter G s e σ 0 routes =
      match astar_both G s e with
      | Except.ok rd => Except.ok (some rd, σ)
      | Except.error err =>
        if isCaught err then Except.ok (none, σ) else Except.error err := by
  unfold attemptIter
  rw [if_pos rfl]

lemma attemptIter_pos (G : Graph) (s e : Node) (σ i : ℕ)
    (routes : List (List Node × ℚ)) (hi : i ≠ 0) :
    attemptIter G s e σ i routes =
      match perturb σ G routes with
      | Except.error err =>
        if isCaught err then Except.ok (none, σ) else Except.error err
      | Except.ok (tempG, σ') =>
        match astar_both tempG s e with
        | Except.ok rd => Except.ok (some rd, σ')
        | Except.error err =>
          if isCaught err then Except.ok (none, σ') else Except.error err := by
  unfold attemptIter
  rw [if_neg hi]

lemma calcAux_zero (G : Graph) (s e : Node) (i σ : ℕ) (routes : List (List Node × ℚ)) :
    calcAux G s e 0 i σ routes = Except.ok (routes, σ) := rfl

lemma calcAux_succ (G : Graph) (s e : Node) (n i σ : ℕ) (routes : List (List Node × ℚ)) :
    calcAux G s e (n+1) i σ routes =
      match attemptIter G s e σ i routes with
      | Except.error err => Except.error err
      | Except.ok (none, σ') => calcAux G s e n (i+1) σ' routes
      | Except.ok (some rd, σ') => calcAux G s e n (i+1) σ' (routes ++ [rd]) := rfl

/-- The invariant carried by every (route, distance) pair the loop appends:
the route is duplicate-free and, for the snapshot it was computed from
(some node-removal restriction of the input graph), it is a walk from `s`
to `e` whose recorded distance is the sum of traversed edge weights there. -/
def goodRoute (G : Graph) (s e : Node) (rd : List Node × ℚ) : Prop :=
  rd.1.Nodup ∧ ∃ S, isWalkFrom (G.removeNodes S) s e rd.1 ∧
    rd.2 = routeLen (G.removeNodes S) rd.1

lemma walk_length_two {H : Graph} {s e : Node} {p : List Node}
    (hw : isWalkFrom H s e p) (hne : s ≠ e) : 2 ≤ p.length := by
  obtain ⟨h0, hh, hl, _, _⟩ := hw
  obtain ⟨rest, rfl⟩ := List.head?_eq_some_iff.mp hh
  cases rest with
  | nil =>
    rw [List.getLast?_singleton] at hl
    injection hl with hl
    exact absurd hl hne
  | cons v r2 => simp

lemma calcAux_master {G : Graph} {s e : Node} (hwf : G.wf) (hne : s ≠ e) :
    ∀ (n i σ : ℕ) (routes : List (List Node × ℚ)),
      (∀ rd ∈ routes, goodRoute G s e rd) →
      ∃ rs σ', calcAux G s e n i σ routes = Except.ok (rs, σ') ∧
        (∀ rd ∈ rs, goodRoute G s e rd) ∧
        ∃ t, rs = routes ++ t ∧ t.length ≤ n := by
  intro n
  induction n with
  | zero =>
    intro i σ routes hinv
    exact ⟨routes, σ, rfl, hinv, [], by simp, by simp⟩
  | succ n ih =>
    intro i σ routes hinv
    have hroutes2 : ∀ q ∈ routes, q.1.Nodup ∧ 2 ≤ q.1.length := by
      intro q hq
      obtain ⟨hnd, S, hw, _⟩ := hinv q hq
      exact ⟨hnd, walk_length_two hw hne⟩
    by_cases hi : i = 0
    · subst hi
      cases hb : astar_both G s e with
      | ok rd =>
        obtain ⟨r, d⟩ := rd
        obtain ⟨hap, hd⟩ := astar_both_ok hb
        obtain ⟨hw, hnd⟩ := astar_path_sound hwf hap
        have hgood : goodRoute G s e (r, d) :=
          ⟨hnd, [], by rw [removeNodes_nil]; exact hw, by rw [removeNodes_nil]; exact hd⟩
        have hinv2 : ∀ rd ∈ routes ++ [(r, d)], goodRoute G s e rd := by
          intro rd hrd
          rcases List.mem_append.mp hrd with hrd | hrd
          · exact hinv rd hrd
          · rcases List.mem_singleton.mp hrd with rfl; exact hgood
        obtain ⟨rs, σ', hcalc, hrsinv, t, hts, htlen⟩ := ih 1 σ (routes ++ [(r, d)]) hinv2
        have hstep : attemptIter G s e σ 0 routes = Except.ok (some (r, d), σ) := by
          rw [attemptIter_zero, hb]
        refine ⟨rs, σ', ?_, hrsinv, (r, d) :: t, ?_, by simpa using htlen⟩
        · rw [calcAux_succ, hstep]
          exact hcalc
        · rw [hts, List.append_assoc]
          rfl
      | error err =>
        have hcaught : isCaught err = true := astar_path_error_caught (astar_both_err hb)
        obtain ⟨rs, σ', hcalc, hrsinv, t, hts, htlen⟩ := ih 1 σ routes hinv
        have hstep : attemptIter G s e σ 0 routes = Except.ok (none, σ) := by
          rw [attemptIter_zero, hb]
          simp [hcaught]
        refine ⟨rs, σ', ?_, hrsinv, t, hts, by omega⟩
        rw [calcAux_succ, hstep]
        exact hcalc
    · obtain ⟨sels, σ₂, hall, hpert⟩ := perturb_spec (σ := σ) hroutes2
      have hHwf : (G.removeNodes sels.flatten).wf := removeNodes_wf hwf _
      cases hb : astar_both (G.removeNodes sels.flatten) s e with
      | ok rd =>
        obtain ⟨r, d⟩ := rd
        obtain ⟨hap, hd⟩ := astar_both_ok hb
        obtain ⟨hw, hnd⟩ := astar_path_sound hHwf hap
        have hgood : goodRoute G s e (r, d) := ⟨hnd, sels.flatten, hw, hd⟩
        have hinv2 : ∀ rd ∈ routes ++ [(r, d)], goodRoute G s e rd := by
          intro rd hrd
          rcases List.mem_append.mp hrd with hrd | hrd
          · exact hinv rd hrd
          · rcases List.mem_singleton.mp hrd with rfl; exact hgood
        obtain ⟨rs, σ', hcalc, hrsinv, t, hts, htlen⟩ := ih (i+1) σ₂ (routes ++ [(r, d)]) hinv2
        have hstep : attemptIter G s e σ i routes = Except.ok (some (r, d), σ₂) := by
          rw [attemptIter_pos _ _ _ _ _ _ hi, hpert]
          dsimp only
          rw [hb]
        refine ⟨rs, σ', ?_, hrsinv, (r, d) :: t, ?_, by simpa using htlen⟩
        · rw [calcAux_succ, hstep]
          exact hcalc
        · rw [hts, List.append_assoc]
          rfl
      | error err =>
        have hcaught : isCaught err = true := astar_path_error_caught (astar_both_err hb)
        obtain ⟨rs, σ', hcalc, hrsinv, t, hts, htlen⟩ := ih (i+1) σ₂ routes hinv
        have hstep : attemptIter G s e σ i routes = Except.ok (none, σ₂) := by
          rw [attemptIter_pos _ _ _ _ _ _ hi, hpert]
          dsimp only
          rw [hb]
          simp [hcaught]
        refine ⟨rs, σ', ?_, hrsinv, t, hts, by omega⟩
        rw [calcAux_succ, hstep]
        exact hcalc

/-- If the endpoints are disconnected in the full graph, every iteration
fails with a caught exception and the route list stays empty. -/
lemma calcAux_disconnected {G : Graph} {s e : Node} (hwf : G.wf) (hnp : ¬ hasPath G s e) :
    ∀ (n i σ : ℕ), ∃ σ', calcAux G s e n i σ [] = Except.ok ([], σ') := by
  intro n
  induction n with
  | zero => intro i σ; exact ⟨σ, rfl⟩
  | succ n ih =>
    intro i σ
    obtain ⟨err, herr, hcaught⟩ := astar_path_fails hwf hnp
    have hberr : astar_both G s e = Except.error err := by rw [astar_both_eq, herr]
    by_cases hi : i = 0
    · subst hi
      have hstep : attemptIter G s e σ 0 [] = Except.ok (none, σ) := by
        rw [attemptIter_zero, hberr]
        simp [hcaught]
      obtain ⟨σ', hrec⟩ := ih 1 σ
      refine ⟨σ', ?_⟩
      rw [calcAux_succ, hstep]
      exact hrec
    · have hstep : attemptIter G s e σ i [] = Except.ok (none, σ) := by
        rw [attemptIter_pos _ _ _ _ _ _ hi, perturb_empty]
        dsimp only
        rw [hberr]
        simp [hcaught]
      obtain ⟨σ', hrec⟩ := ih (i+1) σ
      refine ⟨σ', ?_⟩
      rw [calcAux_succ, hstep]
      exact hrec

/-- With distinct, present, connected endpoints, the function returns
normally with between 1 and `k` routes, all carrying the `goodRoute`
invariant. -/
lemma calc_with_path {G : Graph} {s e : Node} (hwf : G.wf) (hne : s ≠ e)
    (hs : s ∈ G.nodes) (he : e ∈ G.nodes) (hp : hasPath G s e)
    (k σ : ℕ) (hk : 1 ≤ k) :
    ∃ rs, calculate_alternative_routes G s e k σ = Except.ok rs ∧
      1 ≤ rs.length ∧ rs.length ≤ k ∧ ∀ rd ∈ rs, goodRoute G s e rd := by
  obtain ⟨m, rfl⟩ : ∃ m, k = m + 1 := ⟨k - 1, by omega⟩
  obtain ⟨p, hap⟩ := astar_path_complete hs he hp
  have hb : astar_both G s e = Except.ok (p, routeLen G p) := by rw [astar_both_eq, hap]
  obtain ⟨hw, hnd⟩ := astar_path_sound hwf hap
  have hstep : attemptIter G s e σ 0 [] = Except.ok (some (p, routeLen G p), σ) := by
    rw [attemptIter_zero, hb]
  have hgood : goodRoute G s e (p, routeLen G p) :=
    ⟨hnd, [], by rw [removeNodes_nil]; exact hw, by rw [removeNodes_nil]⟩
  obtain ⟨rs, σ', hcalc, hinv, t, hts, htlen⟩ :=
    calcAux_master hwf hne m 1 σ [(p, routeLen G p)] (by
      intro rd hrd
      rcases List.mem_singleton.mp hrd with rfl
      exact hgood)
  refine ⟨rs, ?_, ?_, ?_, hinv⟩
  · unfold calculate_alternative_routes
    rw [calcAux_succ, hstep]
    show Except.map Prod.fst (calcAux G s e m 1 σ [(p, routeLen G p)]) = Except.ok rs
    rw [hcalc]
    rfl
  · rw [hts]
    simp
  · rw [hts]
    simp only [List.length_append, List.length_singleton]
    omega

/-- With distinct endpoints the loop never aborts: all `k` iterations are
attempted, caught failures are skipped, and at most `k` routes come back. -/
lemma calc_no_abort {G : Graph} {s e : Node} (hwf : G.wf) (hne : s ≠ e) (k σ : ℕ) :
    ∃ rs, calculate_alternative_routes G s e k σ = Except.ok rs ∧
      rs.length ≤ k ∧ ∀ rd ∈ rs, goodRoute G s e rd := by
  obtain ⟨rs, σ', hcalc, hinv, t, hts, htlen⟩ :=
    calcAux_master hwf hne k 0 σ [] (by intro rd hrd; cases hrd)
  refine ⟨rs, ?_, ?_, hinv⟩
  · unfold calculate_alternative_routes
    rw [hcalc]
    rfl
  · rw [hts]
    simpa using htlen

/-- The state-passing loop hands the caller's graph object back untouched. -/
lemma calcAuxSt_graph (G : Graph) (s e : Node) :
    ∀ (n i σ : ℕ) (routes : List (List Node × ℚ)),
      (calcAuxSt G s e n i σ routes).2 = G := by
  intro n
  induction n with
  | zero => intro i σ routes; rfl
  | succ n ih =>
    intro i σ routes
    show (match attemptIter G s e σ i routes with
      | Except.error err => (Except.error err, G)
      | Except.ok (none, σ') => calcAuxSt G s e n (i+1) σ' routes
      | Except.ok (some rd, σ') => calcAuxSt G s e n (i+1) σ' (routes ++ [rd])).2 = G
    cases attemptIter G s e σ i routes with
    | error err => rfl
    | ok pr =>
      obtain ⟨o, σ'⟩ := pr
      cases o with
      | none => exact ih (i+1) σ' routes
      | some rd => exact ih (i+1) σ' (routes ++ [rd])

/-- The state-passing loop computes the same result as the plain one. -/
lemma calcAuxSt_result (G : Graph) (s e : Node) :
    ∀ (n i σ : ℕ) (routes : List (List Node × ℚ)),
      (calcAuxSt G s e n i σ routes).1 = calcAux G s e n i σ routes := by
  intro n
  induction n with
  | zero => intro i σ routes; rfl
  | succ n ih =>
    intro i σ routes
    show (match attemptIter G s e σ i routes with
      | Except.error err => (Except.error err, G)
      | Except.ok (none, σ') => calcAuxSt G s e n (i+1) σ' routes
      | Except.ok (some rd, σ') => calcAuxSt G s e n (i+1) σ' (routes ++ [rd])).1 =
      match attemptIter G s e σ i routes with
      | Except.error err => Except.error err
      | Except.ok (none, σ') => calcAux G s e n (i+1) σ' routes
      | Except.ok (some rd, σ') => calcAux G s e n (i+1) σ' (routes ++ [rd])
    cases attemptIter G s e σ i routes with
    | error err => rfl
    | ok pr =>
      obtain ⟨o, σ'⟩ := pr
      cases o with
      | none => exact ih (i+1) σ' routes
      | some rd => exact ih (i+1) σ' (routes ++ [rd])

/-! ### Ranking lemmas -/

lemma sortRoutes_sorted (rs : List (List Node × ℚ)) :
    List.Pairwise (fun a b : List Node × ℚ => a.2 ≤ b.2) (sortRoutes rs) := by
  have h := @List.sorted_mergeSort (List Node × ℚ) (fun a b => decide (a.2 ≤ b.2))
    (by
      intro a b c h1 h2
      simp only [decide_eq_true_eq] at h1 h2 ⊢
      exact le_trans h1 h2)
    (by
      intro a b
      simp only [Bool.or_eq_true, decide_eq_true_eq]
      exact le_total a.2 b.2) rs
  have he : sortRoutes rs = rs.mergeSort (fun a b => decide (a.2 ≤ b.2)) := rfl
  rw [he]
  exact h.imp (fun hab => by simpa using hab)

lemma sortRoutes_perm (rs : List (List Node × ℚ)) : (sortRoutes rs).Perm rs :=
  List.mergeSort_perm rs _

lemma route_type_big {i : ℕ} (hi : 2 ≤ i) : route_type i = "Longest" := by
  unfold route_type
  rw [if_neg (by omega), if_neg (by omega)]

lemma tooltipFor_matches : ∀ i : ℕ, tooltipFor i = route_type i ++ " Route" := by
  intro i
  match i with
  | 0 => rfl
  | 1 => rfl
  | n + 2 =>
    have hm : min (n + 2) (tooltipLabels.length - 1) = 2 := by
      simp only [tooltipLabels, List.length_cons, List.length_nil]
      omega
    unfold tooltipFor
    rw [hm, route_type_big (by omega)]
    rfl

/-! ### Unconditional loop invariant (used when a successful run is given) -/

lemma attemptIter_some_good {G : Graph} {s e : Node} {σ i : ℕ}
    {routes : List (List Node × ℚ)} {rd : List Node × ℚ} {σ₂ : ℕ}
    (hwf : G.wf) (h : attemptIter G s e σ i routes = Except.ok (some rd, σ₂)) :
    goodRoute G s e rd := by
  by_cases hi : i = 0
  · subst hi
    rw [attemptIter_zero] at h
    cases hb : astar_both G s e with
    | ok rd2 =>
      rw [hb] at h
      dsimp only at h
      injection h with h
      rw [Prod.mk.injEq] at h
      obtain ⟨h1, h2⟩ := h
      injection h1 with h1
      subst h1
      obtain ⟨r, d⟩ := rd2
      obtain ⟨hap, hd⟩ := astar_both_ok hb
      obtain ⟨hw, hnd⟩ := astar_path_sound hwf hap
      exact ⟨hnd, [], by rw [removeNodes_nil]; exact hw, by rw [removeNodes_nil]; exact hd⟩
    | error err =>
      rw [hb] at h
      dsimp only at h
      by_cases hc : isCaught err = true
      · rw [if_pos hc] at h
        injection h with h
        rw [Prod.mk.injEq] at h
        cases h.1
      · rw [if_neg hc] at h
        cases h
  · rw [attemptIter_pos _ _ _ _ _ _ hi] at h
    cases hp : perturb σ G routes with
    | error err =>
      rw [hp] at h
      dsimp only at h
      by_cases hc : isCaught err = true
      · rw [if_pos hc] at h
        injection h with h
        rw [Prod.mk.injEq] at h
        cases h.1
      · rw [if_neg hc] at h
        cases h
    | ok pr =>
      obtain ⟨tempG, σ₃⟩ := pr
      rw [hp] at h
      dsimp only at h
      obtain ⟨S, rfl⟩ := removeForRoutes_ok_shape routes σ G.copy tempG σ₃ hp
      cases hb : astar_both ((Graph.copy G).removeNodes S) s e with
      | ok rd2 =>
        rw [hb] at h
        dsimp only at h
        injection h with h
        rw [Prod.mk.injEq] at h
        obtain ⟨h1, h2⟩ := h
        injection h1 with h1
        subst h1
        obtain ⟨r, d⟩ := rd2
        obtain ⟨hap, hd⟩ := astar_both_ok hb
        have hWwf : ((Graph.copy G).removeNodes S).wf := removeNodes_wf hwf S
        obtain ⟨hw, hnd⟩ := astar_path_sound hWwf hap
        exact ⟨hnd, S, hw, hd⟩
      | error err =>
        rw [hb] at h
        dsimp only at h
        by_cases hc : isCaught err = true
        · rw [if_pos hc] at h
          injection h with h
          rw [Prod.mk.injEq] at h
          cases h.1
        · rw [if_neg hc] at h
          cases h

lemma calcAux_inv {G : Graph} {s e : Node} (hwf : G.wf) :
    ∀ (n i σ : ℕ) (routes rs : List (List Node × ℚ)) (σ2 : ℕ),
      (∀ rd ∈ routes, goodRoute G s e rd) →
      calcAux G s e n i σ routes = Except.ok (rs, σ2) →
      ∀ rd ∈ rs, goodRoute G s e rd := by
  intro n
  induction n with
  | zero =>
    intro i σ routes rs σ2 hinv h
    rw [calcAux_zero] at h
    injection h with h
    rw [Prod.mk.injEq] at h
    intro rd hrd
    exact hinv rd (h.1 ▸ hrd)
  | succ n ih =>
    intro i σ routes rs σ2 hinv h
    rw [calcAux_succ] at h
    cases hA : attemptIter G s e σ i routes with
    | error err =>
      rw [hA] at h
      dsimp only at h
      cases h
    | ok pr =>
      rw [hA] at h
      obtain ⟨o, σ₃⟩ := pr
      cases o with
      | none => exact ih (i+1) σ₃ routes rs σ2 hinv h
      | some rd2 =>
        refine ih (i+1) σ₃ (routes ++ [rd2]) rs σ2 ?_ h
        intro rd hrd
        rcases List.mem_append.mp hrd with hrd | hrd
        · exact hinv rd hrd
        · rcases List.mem_singleton.mp hrd with rfl
          exact attemptIter_some_good hwf hA

/-- A graph whose edge relation is empty admits no walk between distinct
nodes. -/
lemma edgeless_no_path {G : Graph} {s e : Node} (hE : G.edges = []) (hne : s ≠ e) :
    ¬ hasPath G s e := by
  rintro ⟨p, hpne, hh, hl, _, hch⟩
  obtain ⟨rest, rfl⟩ := List.head?_eq_some_iff.mp hh
  cases rest with
  | nil =>
    rw [List.getLast?_singleton] at hl
    injection hl with hl
    exact hne hl
  | cons v r2 =>
    have h1 := (List.chain'_cons.mp hch).1
    unfold Graph.hasEdge at h1
    rw [hE] at h1
    simp at h1

/-! ### Concrete instances -/

/-- A diamond: a short three-edge path 0-1-2-3 and a long two-edge detour
0-4-3. -/
def Gpath : Graph :=
  { nodes := [0, 1, 2, 3, 4],
    edges := [(0, 1, 1), (1, 2, 1), (2, 3, 1), (0, 4, 5), (4, 3, 5)] }

/-- Two nodes joined by one direct edge. -/
def Gdirect : Graph := { nodes := [0, 1], edges := [(0, 1, 5)] }

/-- A single isolated node. -/
def Gloop : Graph := { nodes := [7], edges := [] }

/-- Two disconnected nodes. -/
def Gdisc : Graph := { nodes := [0, 1], edges := [] }

/-! ### Claim theorems -/

/-- C1 counterexample: with start = end (both present, trivially connected
by the single-node path) and k = 2, `calculate_alternative_routes` does not
return 1..k routes: iteration 1 samples `min(3, 1-2) = -1` nodes from the
empty interior of the single-node route `[7]`, `np.random.choice` raises
`ValueError`, and the uncaught exception propagates out of the function. -/
theorem C1_counterexample :
    Gloop.wf ∧ (7 : Node) ∈ Gloop.nodes ∧ hasPath Gloop 7 7 ∧ 1 ≤ 2 ∧
    calculate_alternative_routes Gloop 7 7 2 0 = Except.error PyErr.ValueError := by
  refine ⟨by decide, by decide, ⟨[7], by simp +decide [isWalkFrom, Gloop]⟩, by decide, ?_⟩
  norm_num +decide [calculate_alternative_routes, calcAux, attemptIter, astar_both,
    astar_path, astar_path_length, astarAux, Graph.hasNode, Graph.succs, Graph.hasEdge,
    Gloop, perturb, removeForRoutes, np_random_choice, interiors, sampleNoReplace,
    Graph.copy, Graph.removeNodes, routeLen, Graph.weightBetween, Graph.edgeWeights,
    isCaught, List.findSome?, Except.map, nextRand]

/-- C1 (amended with start ≠ end): for every well-formed graph with both
endpoints present, a path between them, distinct endpoints, and k ≥ 1, the
function returns normally with between 1 and k routes, each a non-empty
walk from start to end in the node-removal snapshot it was computed from. -/
theorem C1_alternative_routes_valid {G : Graph} {s e : Node} {k σ : ℕ}
    (hwf : G.wf) (hs : s ∈ G.nodes) (he : e ∈ G.nodes) (hne : s ≠ e)
    (hp : hasPath G s e) (hk : 1 ≤ k) :
    ∃ rs, calculate_alternative_routes G s e k σ = Except.ok rs ∧
      1 ≤ rs.length ∧ rs.length ≤ k ∧
      ∀ rd ∈ rs, ∃ S, isWalkFrom (G.removeNodes S) s e rd.1 := by
  obtain ⟨rs, hok, h1, h2, hinv⟩ := calc_with_path hwf hne hs he hp k σ hk
  refine ⟨rs, hok, h1, h2, ?_⟩
  intro rd hrd
  obtain ⟨_, S, hw, _⟩ := hinv rd hrd
  exact ⟨S, hw⟩

/-- Witness for C1 at the diamond graph, start 0, end 3, k = 3. -/
theorem C1_alternative_routes_valid_witness :
    ∃ rs, calculate_alternative_routes Gpath 0 3 3 0 = Except.ok rs ∧
      1 ≤ rs.length ∧ rs.length ≤ 3 ∧
      ∀ rd ∈ rs, ∃ S, isWalkFrom (Gpath.removeNodes S) 0 3 rd.1 :=
  C1_alternative_routes_valid (by decide) (by decide) (by decide) (by decide)
    ⟨[0, 1, 2, 3], by simp +decide [isWalkFrom, Gpath, Graph.hasEdge]⟩ (by decide)

/-- C2: for iterations after the first, the working graph is the full input
graph (a fresh copy) minus, for every route already in the result set, a
random selection without replacement of exactly `min(3, number of interior
nodes)` of its interior nodes — the selections never touch the route the
current iteration is about to find, because only previously found routes
are consulted. -/
theorem C2_perturbation_shape {G : Graph} {R : List (List Node × ℚ)} {σ : ℕ}
    (hR : ∀ q ∈ R, q.1.Nodup ∧ 2 ≤ q.1.length) :
    ∃ sels σ2,
      List.Forall₂ (fun (q : List Node × ℚ) sel =>
        sel.Nodup ∧ sel ⊆ interiors q.1 ∧ sel.length = min 3 (q.1.length - 2)) R sels ∧
      perturb σ G R = Except.ok (G.removeNodes sels.flatten, σ2) := by
  obtain ⟨sels, σ2, hall, hp⟩ := perturb_spec (σ := σ) hR
  exact ⟨sels, σ2, hall, hp⟩

/-- Witness for C2 with one previous route on the diamond graph. -/
theorem C2_perturbation_shape_witness :
    ∃ sels σ2,
      List.Forall₂ (fun (q : List Node × ℚ) sel =>
        sel.Nodup ∧ sel ⊆ interiors q.1 ∧ sel.length = min 3 (q.1.length - 2))
        [([0, 1, 2, 3], (3 : ℚ))] sels ∧
      perturb 11 Gpath [([0, 1, 2, 3], (3 : ℚ))] =
        Except.ok (Gpath.removeNodes sels.flatten, σ2) :=
  C2_perturbation_shape (by decide)

/-- C3 counterexample: on a disconnected input the function returns the
plain empty list through the same `except/continue` path as any
mid-iteration failure; the iteration-0 `NoPathFound` is swallowed, no
error value or other distinct signal reaches the caller. -/
theorem C3_counterexample :
    Gdisc.wf ∧ ¬ hasPath Gdisc 0 1 ∧
    calculate_alternative_routes Gdisc 0 1 3 0 = Except.ok [] := by
  refine ⟨by decide, edgeless_no_path rfl (by decide), ?_⟩
  norm_num +decide [calculate_alternative_routes, calcAux, attemptIter, astar_both,
    astar_path, astar_path_length, astarAux, Graph.hasNode, Graph.succs, Graph.hasEdge,
    Gdisc, perturb, removeForRoutes, np_random_choice, interiors, sampleNoReplace,
    Graph.copy, Graph.removeNodes, routeLen, Graph.weightBetween, Graph.edgeWeights,
    isCaught, List.findSome?, Except.map, nextRand]

/-- C3 (amended): when start and end are disconnected in the full graph the
function returns the empty route set by a normal return; the iteration-0
failure is caught by the same handler as later-iteration failures and is
not signalled distinctly to the caller. -/
theorem C3_disconnected_empty {G : Graph} {s e : Node} {k σ : ℕ}
    (hwf : G.wf) (hnp : ¬ hasPath G s e) :
    calculate_alternative_routes G s e k σ = Except.ok [] := by
  obtain ⟨σ2, h⟩ := calcAux_disconnected hwf hnp k 0 σ
  unfold calculate_alternative_routes
  rw [h]
  rfl

/-- Witness for C3 on the two-node edgeless graph. -/
theorem C3_disconnected_empty_witness :
    calculate_alternative_routes Gdisc 1 0 5 9 = Except.ok [] :=
  C3_disconnected_empty (by decide) (edgeless_no_path rfl (by decide))

/-- The concrete already-sorted four-route set used against C4. -/
def R4 : List (List Node × ℚ) := [([0], 1), ([0], 2), ([0], 3), ([0], 4)]

/-- C4 counterexample: on a sorted route set of four routes, index 2 is
neither the first nor the last index, yet both labelling sites of the code
assign it "Longest" — not "Alternative" as the claim requires for every
route other than index 0 and the last. -/
theorem C4_counterexample :
    sortRoutes R4 = R4 ∧ R4.length = 4 ∧ 2 < R4.length - 1 ∧
    route_type 2 = "Longest" ∧ ¬ route_type 2 = "Alternative" ∧
    tooltipFor 2 = "Longest Route" := by
  refine ⟨List.mergeSort_of_sorted ?_, rfl, by decide, rfl, by decide, rfl⟩
  decide

/-- C4 (amended): ranking sorts ascending by recorded length (the sorted
list is a permutation of the input); the label of sorted index 0 is
"Shortest", of index 1 "Alternative", and of every index ≥ 2 "Longest"
(in both labelling sites, whose labels agree).  Consequently the last index
is labelled "Longest" iff the set has at least 3 routes, and for sets of at
most 3 routes every interior index is labelled "Alternative"; for larger
sets the claim's "Alternative" labelling of interior indices ≥ 2 fails. -/
theorem C4_ranking_labels (rs : List (List Node × ℚ)) :
    List.Pairwise (fun a b : List Node × ℚ => a.2 ≤ b.2) (sortRoutes rs) ∧
    (sortRoutes rs).Perm rs ∧
    route_type 0 = "Shortest" ∧ route_type 1 = "Alternative" ∧
    (∀ i, 2 ≤ i → route_type i = "Longest") ∧
    (∀ i, tooltipFor i = route_type i ++ " Route") ∧
    (1 ≤ rs.length → (route_type (rs.length - 1) = "Longest" ↔ 3 ≤ rs.length)) ∧
    (rs.length ≤ 3 → ∀ i, 0 < i → i < rs.length - 1 → route_type i = "Alternative") := by
  refine ⟨sortRoutes_sorted rs, sortRoutes_perm rs, rfl, rfl,
    fun i hi => route_type_big hi, tooltipFor_matches, ?_, ?_⟩
  · intro h1
    constructor
    · intro hL
      by_contra hlt
      have h12 : rs.length = 1 ∨ rs.length = 2 := by omega
      rcases h12 with h | h <;> rw [h] at hL
      · exact absurd hL (by decide)
      · exact absurd hL (by decide)
    · intro h3
      exact route_type_big (by omega)
  · intro hle i hi hlt
    have hone : i = 1 := by omega
    rw [hone]
    rfl

/-- Witness for C4 at a two-route set. -/
theorem C4_ranking_labels_witness :
    List.Pairwise (fun a b : List Node × ℚ => a.2 ≤ b.2)
      (sortRoutes [([0], (5 : ℚ)), ([1], 2)]) ∧
    (sortRoutes [([0], (5 : ℚ)), ([1], 2)]).Perm [([0], (5 : ℚ)), ([1], 2)] ∧
    route_type 0 = "Shortest" ∧ route_type 1 = "Alternative" ∧
    (∀ i, 2 ≤ i → route_type i = "Longest") ∧
    (∀ i, tooltipFor i = route_type i ++ " Route") ∧
    (1 ≤ ([([0], (5 : ℚ)), ([1], 2)] : List (List Node × ℚ)).length →
      (route_type (([([0], (5 : ℚ)), ([1], 2)] : List (List Node × ℚ)).length - 1) =
          "Longest" ↔ 3 ≤ ([([0], (5 : ℚ)), ([1], 2)] : List (List Node × ℚ)).length)) ∧
    (([([0], (5 : ℚ)), ([1], 2)] : List (List Node × ℚ)).length ≤ 3 →
      ∀ i, 0 < i → i < ([([0], (5 : ℚ)), ([1], 2)] : List (List Node × ℚ)).length - 1 →
        route_type i = "Alternative") :=
  C4_ranking_labels [([0], (5 : ℚ)), ([1], 2)]

/-- C5 counterexample: with start = end and k = 3, iteration 1 fails with an
uncaught `ValueError` (not one of the two caught exception kinds), the
generation aborts, iteration 2 is never attempted, and the successfully
produced iteration-0 route is lost instead of being returned. -/
theorem C5_counterexample :
    calculate_alternative_routes Gloop 7 7 3 1 = Except.error PyErr.ValueError ∧
    isCaught PyErr.ValueError = false := by
  refine ⟨?_, rfl⟩
  norm_num +decide [calculate_alternative_routes, calcAux, attemptIter, astar_both,
    astar_path, astar_path_length, astarAux, Graph.hasNode, Graph.succs, Graph.hasEdge,
    Gloop, perturb, removeForRoutes, np_random_choice, interiors, sampleNoReplace,
    Graph.copy, Graph.removeNodes, routeLen, Graph.weightBetween, Graph.edgeWeights,
    isCaught, List.findSome?, Except.map, nextRand]

/-- C5 (amended with start ≠ end, which rules out the uncaught sampling
error): every path-search failure is caught and that iteration merely
appends nothing; the loop always runs to completion and returns normally
whatever routes the successful iterations produced — between 0 and k of
them, each a valid walk in its snapshot. -/
theorem C5_skip_failed_iterations {G : Graph} {s e : Node} {k σ : ℕ}
    (hwf : G.wf) (hne : s ≠ e) :
    ∃ rs, calculate_alternative_routes G s e k σ = Except.ok rs ∧ rs.length ≤ k ∧
      ∀ rd ∈ rs, ∃ S, isWalkFrom (G.removeNodes S) s e rd.1 := by
  obtain ⟨rs, hok, hlen, hinv⟩ := calc_no_abort hwf hne k σ
  refine ⟨rs, hok, hlen, ?_⟩
  intro rd hrd
  obtain ⟨_, S, hw, _⟩ := hinv rd hrd
  exact ⟨S, hw⟩

/-- Witness for C5 on the diamond graph with k = 4. -/
theorem C5_skip_failed_iterations_witness :
    ∃ rs, calculate_alternative_routes Gpath 0 3 4 2 = Except.ok rs ∧ rs.length ≤ 4 ∧
      ∀ rd ∈ rs, ∃ S, isWalkFrom (Gpath.removeNodes S) 0 3 rd.1 :=
  C5_skip_failed_iterations (by decide) (by decide)

/-- C6: whenever the function returns a route set, each returned pair
carries as its recorded distance exactly the sum of the effective traversed
edge weights of its route in the snapshot (a node-removal restriction of
the input graph) on which that route was computed; over `ℚ` the equality is
exact, subsuming the claim's floating-point tolerance. -/
theorem C6_recorded_length {G : Graph} {s e : Node} {k σ : ℕ}
    {rs : List (List Node × ℚ)}
    (hwf : G.wf) (h : calculate_alternative_routes G s e k σ = Except.ok rs) :
    ∀ rd ∈ rs, ∃ S, isWalkFrom (G.removeNodes S) s e rd.1 ∧
      rd.2 = routeLen (G.removeNodes S) rd.1 := by
  unfold calculate_alternative_routes at h
  cases hx : calcAux G s e k 0 σ [] with
  | error err => rw [hx] at h; cases h
  | ok pr =>
    rw [hx] at h
    obtain ⟨rs2, σ2⟩ := pr
    injection h with h
    subst h
    intro rd hrd
    obtain ⟨_, S, hw, hd⟩ := calcAux_inv hwf k 0 σ [] rs2 σ2
      (by intro rd hrd; cases hrd) hx rd hrd
    exact ⟨S, hw, hd⟩

/-- Witness for C6: the recorded length 3 of the shortest diamond route. -/
theorem C6_recorded_length_witness :
    ∃ S, isWalkFrom (Gpath.removeNodes S) 0 3 [0, 1, 2, 3] ∧
      (3 : ℚ) = routeLen (Gpath.removeNodes S) [0, 1, 2, 3] :=
  C6_recorded_length (by decide)
    (show calculate_alternative_routes Gpath 0 3 2 5 =
        Except.ok [([0, 1, 2, 3], 3), ([0, 4, 3], 10)] by
      norm_num +decide [calculate_alternative_routes, calcAux, attemptIter, astar_both,
        astar_path, astar_path_length, astarAux, Graph.hasNode, Graph.succs,
        Graph.hasEdge, Gpath, perturb, removeForRoutes, np_random_choice, interiors,
        sampleNoReplace, Graph.copy, Graph.removeNodes, routeLen, Graph.weightBetween,
        Graph.edgeWeights, isCaught, List.findSome?, Except.map, nextRand])
    ([0, 1, 2, 3], 3) (List.mem_cons_self _ _)

/-- C7: the input graph object is returned to the caller exactly as it was
— the state-passing form of the loop threads it through unchanged, agreeing
with the plain form on the result — and every working graph an iteration
searches is a node-removal restriction of the graph it was derived from by
`G.copy()`, so removals for one iteration cannot leak into any other. -/
theorem C7_input_graph_preserved (G : Graph) (s e : Node) (k σ : ℕ) :
    (calcAuxSt G s e k 0 σ []).2 = G ∧
    (calcAuxSt G s e k 0 σ []).1 = calcAux G s e k 0 σ [] ∧
    ∀ (σ0 : ℕ) (R : List (List Node × ℚ)) (H Hp : Graph) (σ1 : ℕ),
      removeForRoutes σ0 H R = Except.ok (Hp, σ1) → ∃ S, Hp = H.removeNodes S :=
  ⟨calcAuxSt_graph G s e k 0 σ [], calcAuxSt_result G s e k 0 σ [],
    fun σ0 R H Hp σ1 h => removeForRoutes_ok_shape R σ0 H Hp σ1 h⟩

/-- Witness for C7 on the diamond graph, with one concrete perturbation. -/
theorem C7_input_graph_preserved_witness :
    (calcAuxSt Gpath 0 3 3 0 4 []).2 = Gpath ∧
    ∃ S, Gpath.removeNodes [2] = Gpath.removeNodes S :=
  ⟨(C7_input_graph_preserved Gpath 0 3 3 4).1,
    (C7_input_graph_preserved Gpath 0 3 3 4).2.2 6 [([0, 2, 3], 6)] Gpath
      (Gpath.removeNodes [2]) (nextRand 6)
      (by norm_num +decide [removeForRoutes, np_random_choice, interiors,
        sampleNoReplace, Gpath, Graph.removeNodes, Graph.copy, nextRand])⟩

/-- C8: with the pseudo-random source threaded as an explicit seed, the
function is a pure function of (graph, start, end, count, seed); two runs
on identical inputs with the same seed return identical results, route for
route, recorded lengths included. -/
theorem C8_determinism_under_seed {G : Graph} {s e : Node} {k σ : ℕ}
    {r1 r2 : Except PyErr (List (List Node × ℚ))}
    (h1 : calculate_alternative_routes G s e k σ = r1)
    (h2 : calculate_alternative_routes G s e k σ = r2) :
    r1 = r2 := by
  rw [← h1, ← h2]

/-- Witness for C8: two identically seeded runs on the direct-edge graph. -/
theorem C8_determinism_under_seed_witness :
    calculate_alternative_routes Gdirect 0 1 2 3 =
      calculate_alternative_routes Gdirect 0 1 2 3 :=
  C8_determinism_under_seed rfl rfl

/-- C9: both presentation sites divide the recorded length by 1000 to get
kilometres and apply `distance_km / 40 * 60` to get minutes, mapping the
same formulas over every route; at length 40000 these give exactly 40.0 km
and 60.0 minutes. -/
theorem C9_metric_conversion :
    (∀ rs : List (List Node × ℚ), distances_km rs = rs.map (fun rd => rd.2 / 1000) ∧
      times_min rs = rs.map (fun rd => rd.2 / 1000 / 40 * 60)) ∧
    (∀ p : List Node, distances_km [(p, 40000)] = [40] ∧
      times_min [(p, 40000)] = [60]) ∧
    summary_metrics 40000 = (40, 60) := by
  refine ⟨?_, ?_, ?_⟩
  · intro rs
    refine ⟨rfl, ?_⟩
    unfold times_min distances_km
    rw [List.map_map]
    rfl
  · intro p
    constructor
    · unfold distances_km
      simp only [List.map_cons, List.map_nil]
      norm_num
    · unfold times_min distances_km
      simp only [List.map_cons, List.map_nil]
      norm_num
  · unfold summary_metrics
    norm_num [Prod.ext_iff]

/-- C10 counterexample: a direct start-to-end edge makes iteration 0 return
the two-node route `[0, 1]` (fewer than 3 nodes); iteration 1 then samples
`min(3, 0) = 0` nodes from its empty interior, which `np.random.choice`
accepts, no error is raised, and the function returns both routes
normally. -/
theorem C10_counterexample :
    calculate_alternative_routes Gdirect 0 1 2 0 =
      Except.ok [([0, 1], 5), ([0, 1], 5)] ∧
    ([0, 1] : List Node).length < 3 := by
  refine ⟨?_, by decide⟩
  norm_num +decide [calculate_alternative_routes, calcAux, attemptIter, astar_both,
    astar_path, astar_path_length, astarAux, Graph.hasNode, Graph.succs, Graph.hasEdge,
    Gdirect, perturb, removeForRoutes, np_random_choice, interiors, sampleNoReplace,
    Graph.copy, Graph.removeNodes, routeLen, Graph.weightBetween, Graph.edgeWeights,
    isCaught, List.findSome?, Except.map, nextRand]

/-- C10 (amended): the uncaught error arises exactly for a result route
with fewer than 2 nodes — the single-node route produced when start = end —
whose sampling size `min(3, -1)` is negative; then `np.random.choice`
raises `ValueError`, the handler (covering only the two path-search
exceptions) does not catch it, and it propagates out of the function. -/
theorem C10_single_node_route_error {G : Graph} {s : Node} {k σ : ℕ}
    (hs : s ∈ G.nodes) (hk : 2 ≤ k) :
    calculate_alternative_routes G s s k σ = Except.error PyErr.ValueError := by
  obtain ⟨m, rfl⟩ : ∃ m, k = m + 1 + 1 := ⟨k - 2, by omega⟩
  have hap := astar_path_self hs
  have hb : astar_both G s s = Except.ok ([s], 0) := by
    rw [astar_both_eq, hap]
    rfl
  have hstep0 : attemptIter G s s σ 0 [] = Except.ok (some ([s], 0), σ) := by
    rw [attemptIter_zero, hb]
  have hpert : perturb σ G [([s], (0 : ℚ))] = Except.error PyErr.ValueError := by
    show removeForRoutes σ G.copy [([s], 0)] = Except.error PyErr.ValueError
    simp only [removeForRoutes, np_choice_singleton (p := [s]) rfl]
  have hstep1 : attemptIter G s s σ 1 [([s], (0 : ℚ))] =
      Except.error PyErr.ValueError := by
    rw [attemptIter_pos _ _ _ _ _ _ (by omega), hpert]
    rfl
  unfold calculate_alternative_routes
  rw [calcAux_succ, hstep0]
  show Except.map Prod.fst (calcAux G s s (m + 1) 1 σ [([s], 0)]) =
    Except.error PyErr.ValueError
  rw [calcAux_succ, hstep1]
  rfl

/-- Witness for C10 on the single-node graph with k = 4. -/
theorem C10_single_node_route_error_witness :
    calculate_alternative_routes Gloop 7 7 4 3 = Except.error PyErr.ValueError :=
  C10_single_node_route_error (by decide) (by decide)

end SPE
